import Mathlib

/-!
Verification development for the arti-vault repository.

The Rust sources are shallowly embedded in Lean 4:
* Rust strings (`&str` / `String`) are modelled as lists of bytes
  (`Str := List Nat`, each entry < 256 for genuine UTF-8 data); Rust's
  byte-indexed slicing, which panics when an index is not a UTF-8 character
  boundary, is modelled by `sliceFrom` / `sliceTo` returning `Option`.
* Fallible Rust code (`anyhow::Result`) is modelled by `RResult`, which also
  has an explicit `panicked` constructor for Rust panics (slice-boundary
  violations, `unwrap` on `None`).
* Async code is modelled as plain state-passing functions; external effects
  (clock, filesystem, HTTP, UUID generation, reference oracle) are explicit
  parameters or explicit state.
-/

/-- Rust string, as its UTF-8 byte sequence. -/
abbrev Str := List Nat

/-- Result of embedded Rust code: success, `anyhow` error, or panic. -/
inductive RResult (α : Type) where
  | ok (a : α)
  | error
  | panicked
deriving DecidableEq, Repr

/-- Byte list of an ASCII string literal (only used on ASCII literals, where
`Char.toNat` is the UTF-8 byte). -/
def strB (s : String) : Str := s.toList.map Char.toNat

/-- `str::is_char_boundary` from Rust core: index 0 is always a boundary,
the end index is a boundary, and an interior index is a boundary iff the byte
there is not a UTF-8 continuation byte (`(b as i8) >= -64`). -/
def isCharBoundary (s : Str) (i : Nat) : Bool :=
  i == 0 ||
    (match s.get? i with
     | some b => b < 128 || 192 ≤ b
     | none => i == s.length)

/-- Rust `&s[i..]`: panics (`none`) unless `i` is a char boundary. -/
def sliceFrom (s : Str) (i : Nat) : Option Str :=
  if isCharBoundary s i then some (s.drop i) else none

/-- Rust `&s[..i]`: panics (`none`) unless `i` is a char boundary. -/
def sliceTo (s : Str) (i : Nat) : Option Str :=
  if isCharBoundary s i then some (s.take i) else none

/-- Rust `str::rfind(c)` for an ASCII character `c`, returning the byte index
of the last occurrence.  (For valid UTF-8 the byte of an ASCII character only
occurs as that character.) -/
def rfindByte (s : Str) (c : Nat) : Option Nat :=
  match s with
  | [] => none
  | b :: rest =>
    match rfindByte rest c with
    | some i => some (i + 1)
    | none => if b = c then some 0 else none

/-- Rust `str::contains(pat)`: some suffix of `s` starts with `pat`. -/
def containsSub (s pat : Str) : Bool :=
  (List.range (s.length + 1)).any (fun i => pat.isPrefixOf (s.drop i))

/-- Rust `u32::from_str`: optional leading `+`, then decimal digits, value
must fit in 32 bits; anything else is a parse error. -/
def parseU32 (s : Str) : Option Nat :=
  let digits := if s.head? = some 43 then s.drop 1 else s
  if digits.isEmpty then none
  else if digits.all (fun b => 48 ≤ b && b ≤ 57) then
    let v := digits.foldl (fun acc b => acc * 10 + (b - 48)) 0
    if v < 2 ^ 32 then some v else none
  else none

/-- Decimal rendering of a `u32` build number (`format!`). -/
def natDigits (n : Nat) : Str := (Nat.toDigits 10 n).map Char.toNat

/-- The literal `"-SNAPSHOT"`. -/
def snapshotLit : Str := strB "-SNAPSHOT"

/-- `src/maven/coordinates.rs` (as used by `src/maven/paths.rs`):
Maven version, either a release or a snapshot with base version string,
timestamp and optional build number. -/
inductive MavenVersion where
  | Release (s : Str)
  | Snapshot (version : Str) (timestamp : Str) (build_number : Option Nat)
deriving DecidableEq, Repr

/-- `MavenClassifier` from `coordinates.rs`. -/
inductive MavenClassifier where
  | Unclassified
  | Classified (c : Str)
deriving DecidableEq, Repr

/-- `MavenArtifactRef` (coordinates flattened into the record), the data model
used by `paths.rs`. -/
structure MavenArtifactRef where
  group_id : Str
  artifact_id : Str
  version : MavenVersion
  classifier : MavenClassifier
  file_extension : Str
deriving DecidableEq, Repr

/-- Result of `parse_maven_filename` (`ParseFilenameResult` in `paths.rs`). -/
structure ParseFilenameResult where
  version : MavenVersion
  classifier : Option Str
  extension : Str
deriving DecidableEq, Repr

/-- The TIMESTAMP_REGEX check `-\d{8}\.\d{6}` applied to the 16-byte window
`&file_name[len-16..]`.  The pattern consumes at least 16 bytes (16 characters,
and any non-ASCII digit takes more than one byte), so the unanchored
`is_match` on a 16-byte window succeeds iff the window is exactly
`-`, 8 ASCII digits, `.`, 6 ASCII digits. -/
def timestampRegexMatch (w : Str) : Bool :=
  w.length = 16 &&
  w.get? 0 = some 45 &&
  ((List.range 8).all fun i => match w.get? (1 + i) with
    | some b => 48 ≤ b && b ≤ 57
    | none => false) &&
  w.get? 9 = some 46 &&
  ((List.range 6).all fun i => match w.get? (10 + i) with
    | some b => 48 ≤ b && b ≤ 57
    | none => false)

/-- `parse_classifier_and_timestamp` from `paths.rs` (lines 114-134):
require at least 16 bytes, match the trailing 16 bytes against the timestamp
regex, split off the timestamp (last 15 bytes) and derive the optional
classifier from what precedes it. -/
def parse_classifier_and_timestamp (file_name : Str) : RResult (Option Str × Str) :=
  if file_name.length < 16 then .error
  else
    match sliceFrom file_name (file_name.length - 16) with
    | none => .panicked
    | some window =>
      if timestampRegexMatch window then
        match sliceTo file_name (file_name.length - 16),
              sliceFrom file_name (file_name.length - 15) with
        | some raw_classifier, some time_stamp =>
          if raw_classifier.head? = some 45 then
            match sliceFrom raw_classifier 1 with
            | some c => .ok (some c, time_stamp)
            | none => .panicked
          else .ok (none, time_stamp)
        | _, _ => .panicked
      else .error

/-- Lines 52-111 of `paths.rs`: the snapshot / release branch dispatch of
`parse_maven_filename`, applied to the remainder `fn3` after the
artifact-id/version prefix and the extension have been split off. -/
def parse_filename_branches (version_string fn3 extension : Str) :
    RResult ParseFilenameResult :=
  if containsSub version_string snapshotLit then
    if ¬ (snapshotLit.isSuffixOf version_string) then .error
    else
      match parse_classifier_and_timestamp fn3 with
      | .ok (classifier, ts) =>
        .ok ⟨.Snapshot version_string ts none, classifier, extension⟩
      | .panicked => .panicked
      | .error =>
        match rfindByte fn3 45 with
        | some last_dash =>
          match sliceFrom fn3 (last_dash + 1) with
          | none => .panicked
          | some suffix =>
            match parseU32 suffix with
            | none => .error
            | some bn =>
              match parse_classifier_and_timestamp (fn3.take last_dash) with
              | .ok (classifier, ts) =>
                .ok ⟨.Snapshot version_string ts (some bn), classifier, extension⟩
              | .error => .error
              | .panicked => .panicked
        | none => .error
  else
    if fn3.isEmpty then .ok ⟨.Release version_string, none, extension⟩
    else if fn3.head? = some 45 then
      match sliceFrom fn3 1 with
      | some c => .ok ⟨.Release version_string, some c, extension⟩
      | none => .panicked
    else .error

/-- Lines 45-50 of `paths.rs`: split the extension at the last `'.'`
(`rfind`), then dispatch on the version kind. -/
def parse_filename_tail (version_string fn2 : Str) : RResult ParseFilenameResult :=
  match rfindByte fn2 46 with
  | some last_dot =>
    parse_filename_branches version_string (fn2.take last_dot) (fn2.drop last_dot)
  | none => parse_filename_branches version_string fn2 []

/-- `parse_maven_filename` from `paths.rs` (lines 29-112): length check,
artifact-id prefix strip (skipping one extra byte), version prefix strip,
then `parse_filename_tail`. -/
def parse_maven_filename (file_name artifact_id version_string : Str) :
    RResult ParseFilenameResult :=
  if file_name.length < artifact_id.length + version_string.length + 2 then .error
  else if ¬ (artifact_id.isPrefixOf file_name) then .error
  else
    match sliceFrom file_name (artifact_id.length + 1) with
    | none => .panicked
    | some fn1 =>
      if ¬ (version_string.isPrefixOf fn1) then .error
      else
        match sliceFrom fn1 version_string.length with
        | none => .panicked
        | some fn2 => parse_filename_tail version_string fn2

/-- `group_id.replace('/', ".")` resp. `replace('.', "/")`: byte-wise map,
since `'.'` and `'/'` are ASCII. -/
def replaceByte (s : Str) (a b : Nat) : Str :=
  s.map (fun x => if x = a then b else x)

/-- `parse_maven_path` from `paths.rs` (lines 139-172).  Note that
`split_at(last_slash)` leaves the separating `'/'` at the head of the second
component; the code strips it from the version and artifact-id segments
(`&version[1..]`, `&artifact_id[1..]`) but not from the filename segment. -/
def parse_maven_path (path : Str) : RResult MavenArtifactRef :=
  match rfindByte path 47 with
  | none => .error
  | some s1 =>
    let without_filename := path.take s1
    let file_name := path.drop s1
    match rfindByte without_filename 47 with
    | none => .error
    | some s2 =>
      let without_version := without_filename.take s2
      let version0 := without_filename.drop s2
      match sliceFrom version0 1 with
      | none => .panicked
      | some version =>
        match rfindByte without_version 47 with
        | none => .error
        | some s3 =>
          let group_id := without_version.take s3
          let artifact0 := without_version.drop s3
          match sliceFrom artifact0 1 with
          | none => .panicked
          | some artifact_id =>
            match parse_maven_filename file_name artifact_id version with
            | .error => .error
            | .panicked => .panicked
            | .ok r =>
              .ok { group_id := replaceByte group_id 47 46
                    artifact_id := artifact_id
                    version := r.version
                    classifier := match r.classifier with
                      | none => .Unclassified
                      | some s => .Classified s
                    file_extension := r.extension }

/-- `maven_file_name` from `paths.rs` (lines 176-207).  Note the format string
for snapshots appends a literal `"-SNAPSHOT"` after the stored (already
`-SNAPSHOT`-suffixed) version field. -/
def maven_file_name (r : MavenArtifactRef) : Str :=
  let classifier_string : Str :=
    match r.classifier with
    | .Unclassified => []
    | .Classified c => 45 :: c
  match r.version with
  | .Release v =>
    r.artifact_id ++ [45] ++ v ++ classifier_string ++ r.file_extension
  | .Snapshot version timestamp build_number =>
    let build_number_string : Str :=
      match build_number with
      | none => []
      | some n => 45 :: natDigits n
    r.artifact_id ++ [45] ++ version ++ snapshotLit ++ classifier_string ++
      [45] ++ timestamp ++ build_number_string ++ r.file_extension

/-- `as_maven_path` from `paths.rs` (lines 13-26). -/
def as_maven_path (r : MavenArtifactRef) : Str :=
  let version_string : Str :=
    match r.version with
    | .Release s => s
    | .Snapshot version _ _ => version
  replaceByte r.group_id 46 47 ++ [47] ++ r.artifact_id ++ [47] ++
    version_string ++ [47] ++ maven_file_name r

/-!
## `src/util/validating_http_body.rs`

The wrapped HTTP body is a list of pending items (`Except Unit Str` chunks in
arrival order; the list end is end-of-stream).  A validator is a fold state
with `add_data` and `do_validate`.  `Poll::Pending` is invisible at this level
(the stream simply re-polls), so one `poll_next` consumes one upstream item.
-/

/-- `HttpBodyValidator`: state with `add_data` and `do_validate`. -/
structure Validator (σ : Type) where
  add_data : σ → Str → σ
  do_validate : σ → Bool

/-- State of `ValidatingHttpBody`: remaining upstream items, validator state,
and the `is_failed` flag. -/
structure VBody (σ : Type) where
  http_body : List (Except Unit Str)
  vstate : σ
  is_failed : Bool

/-- One observable outcome of `poll_next`. -/
inductive PollOut where
  | chunk (data : Str)
  | done
  | errFailedValidation
  | errUpstream
  | errPollingFromFailed
deriving DecidableEq, Repr

/-- `ValidatingHttpBody::poll_next` (lines 42-71 of
`validating_http_body.rs`). -/
def poll_next {σ : Type} (v : Validator σ) (s : VBody σ) : VBody σ × PollOut :=
  if s.is_failed then (s, .errPollingFromFailed)
  else
    match s.http_body with
    | .ok data :: rest =>
      ({ s with http_body := rest, vstate := v.add_data s.vstate data }, .chunk data)
    | [] =>
      if v.do_validate s.vstate then (s, .done)
      else ({ s with is_failed := true }, .errFailedValidation)
    | .error _ :: rest =>
      ({ s with http_body := rest, is_failed := true }, .errUpstream)

/-- Iterated polling, collecting the outputs in order. -/
def runPolls {σ : Type} (v : Validator σ) : VBody σ → Nat → VBody σ × List PollOut
  | s, 0 => (s, [])
  | s, n + 1 =>
    let (s1, o) := poll_next v s
    let (s2, os) := runPolls v s1 n
    (s2, o :: os)

/-!
## `src/maven/remote_repo.rs`: the coordinator `get_artifact`

The stores and the downloader are external collaborators; a `CoordEnv` records
the outcome each of them would produce for the one artifact reference under
consideration.  `κ` is the blob-key type, `β` the blob type.
-/

/-- `GetArtifactDecision` from `remote_repo.rs`. -/
inductive GetArtifactDecision (κ : Type) where
  | Local (key : κ)
  | Download
  | Fail
deriving DecidableEq, Repr

/-- Outcomes of the collaborators invoked by `get_artifact` for a fixed
artifact reference. -/
structure CoordEnv (κ β : Type) where
  decide : Except Unit (GetArtifactDecision κ)
  blobGet : κ → Except Unit (Option β)
  download : Except Unit β
  insert : Except Unit κ
  register : Except Unit Unit

/-- The distinct error returns of `get_artifact` (each corresponds to one
`Err`/`anyhow!` site in lines 44-86 of `remote_repo.rs`). -/
inductive GetErr where
  | decideErr
  | localGetErr
  | localNotFound
  | insertErr
  | registerErr
  | finalGetErr
  | storedNotFound
  | downloadFailed
  | skipRecentFailure
deriving DecidableEq, Repr

/-- `RemoteMavenRepo::get_artifact` (lines 44-86): the result together with
whether `register_failed_download` was invoked (its own result is ignored by
the code, so only the call itself is recorded). -/
def get_artifact {κ β : Type} (env : CoordEnv κ β) : Except GetErr β × Bool :=
  match env.decide with
  | .error _ => (.error .decideErr, false)
  | .ok (.Local k) =>
    match env.blobGet k with
    | .error _ => (.error .localGetErr, false)
    | .ok (some b) => (.ok b, false)
    | .ok none => (.error .localNotFound, false)
  | .ok .Download =>
    match env.download with
    | .ok _ =>
      match env.insert with
      | .error _ => (.error .insertErr, false)
      | .ok k =>
        match env.register with
        | .error _ => (.error .registerErr, false)
        | .ok _ =>
          match env.blobGet k with
          | .error _ => (.error .finalGetErr, false)
          | .ok none => (.error .storedNotFound, false)
          | .ok (some b) => (.ok b, false)
    | .error _ => (.error .downloadFailed, true)
  | .ok .Fail => (.error .skipRecentFailure, false)

/-!
## `DummyRemoteRepoMetadataStore` (`remote_repo.rs` lines 187-320)

`HashMap`s become association lists; `Instant` becomes a wall-clock reading in
whole seconds (the code compares `Duration::as_secs`, and
`checked_duration_since(..).unwrap_or(0)` is truncated subtraction).
-/

/-- Association-list lookup (`HashMap::get`). -/
def lookupA {ρ α : Type} [DecidableEq ρ] : List (ρ × α) → ρ → Option α
  | [], _ => none
  | (k, v) :: rest, r => if k = r then some v else lookupA rest r

/-- Association-list removal (`HashMap::remove`). -/
def eraseA {ρ α : Type} [DecidableEq ρ] : List (ρ × α) → ρ → List (ρ × α)
  | [], _ => []
  | (k, v) :: rest, r => if k = r then eraseA rest r else (k, v) :: eraseA rest r

/-- The two indices consulted by `decide_get_artifact`. -/
structure MetaStore (ρ κ : Type) where
  local_artifacts : List (ρ × κ)
  failed_downloads : List (ρ × Nat)
deriving DecidableEq, Repr

/-- `DummyRemoteRepoMetadataStore::decide_get_artifact` (lines 207-226):
`now` is `Instant::now()` in seconds. -/
def decide_get_artifact {ρ κ : Type} [DecidableEq ρ]
    (s : MetaStore ρ κ) (now : Nat) (r : ρ) :
    MetaStore ρ κ × GetArtifactDecision κ :=
  match lookupA s.local_artifacts r with
  | some key => (s, .Local key)
  | none =>
    match lookupA s.failed_downloads r with
    | some download_failure =>
      if 300 < now - download_failure then
        ({ s with failed_downloads := eraseA s.failed_downloads r }, .Download)
      else
        (s, .Fail)
    | none => (s, .Download)

/-- Byte-lexicographic `a <= b` on strings (Rust `String` order, used by
`max_by_key(|(_, timestamp)| timestamp)`). -/
def strLe : Str → Str → Bool
  | [], _ => true
  | _ :: _, [] => false
  | a :: as', b :: bs' =>
    if a < b then true else if b < a then false else strLe as' bs'

/-- `Iterator::max_by_key` accumulator: later elements win ties. -/
def maxByKeyAux {α : Type} (key : α → Str) : α → List α → α
  | acc, [] => acc
  | acc, x :: xs => maxByKeyAux key (if strLe (key acc) (key x) then x else acc) xs

/-- `Iterator::max_by_key`: `none` on an empty iterator, otherwise the last
maximal element. -/
def maxByKey {α : Type} (key : α → Str) : List α → Option α
  | [] => none
  | x :: xs => some (maxByKeyAux key x xs)

/-- Is the version a `Release`? (`matches!(version, MavenVersion::Release(_))`) -/
def isRelease : MavenVersion → Bool
  | .Release _ => true
  | .Snapshot _ _ _ => false

/-- `MavenArtifactMetadata` from `remote_repo.rs`. -/
structure MavenArtifactMetadata where
  latest_version : MavenVersion
  release_version : MavenVersion
  versions : List MavenVersion
  last_updated : Str
deriving DecidableEq, Repr

/-- The `artifact_versions` index: group -> artifact -> (version, timestamp)
list in insertion order. -/
abbrev ArtifactVersions := List (Str × List (Str × List (MavenVersion × Str)))

/-- `DummyRemoteRepoMetadataStore::get_artifact_metadata` (lines 282-319).
The second `max_by_key ... .unwrap()` runs on the releases-only filtered list
and panics when that list is empty. -/
def get_artifact_metadata (store : ArtifactVersions) (g a : Str) :
    RResult (Option MavenArtifactMetadata) :=
  match lookupA store g with
  | none => .ok none
  | some artifacts =>
    match lookupA artifacts a with
    | none => .ok none
    | some versions =>
      if versions.isEmpty then .ok none
      else
        match maxByKey (fun e => e.2) versions with
        | none => .panicked
        | some (latest_version, last_updated) =>
          match maxByKey (fun e => e.2) (versions.filter (fun e => isRelease e.1)) with
          | none => .panicked
          | some (release_version, _) =>
            .ok (some ⟨latest_version, release_version,
                       versions.map (fun e => e.1), last_updated⟩)

/-!
## `src/blob/fs_blob_storage.rs`: filesystem model for `insert` / `delete`

The filesystem is a set of directory paths and a set of files with contents;
paths are component lists.  The digest computation inside `do_insert`
(incremental SHA-1/MD5 feeding `metadata.json`) is abstracted: the metadata
file's bytes are taken to be the concatenated data bytes, since no claim here
depends on the digest values, only on which paths get created.  `Uuid::new_v4`
is nondeterministic, so the generated key is a parameter.
-/

/-- Filesystem path, as its component list. -/
abbrev FPath := List String

/-- Filesystem state: existing directories and files-with-contents. -/
structure FsState where
  dirs : List FPath
  files : List (FPath × Str)
deriving DecidableEq, Repr

/-- Does the path exist (`tokio::fs::try_exists`)? -/
def fsExists (s : FsState) (p : FPath) : Bool :=
  p ∈ s.dirs || p ∈ s.files.map (fun f => f.1)

/-- All ancestor paths of `p`, including the empty root and `p` itself. -/
def fprefixes (p : FPath) : List FPath :=
  (List.range (p.length + 1)).map (fun i => p.take i)

/-- `tokio::fs::create_dir_all`: create the directory and all ancestors;
fails if some ancestor exists as a file. -/
def create_dir_all (s : FsState) (p : FPath) : Except Unit FsState :=
  if (fprefixes p).any (fun q => q ∈ s.files.map (fun f => f.1)) then .error ()
  else .ok { s with dirs := s.dirs ++ (fprefixes p).filter (fun q => ¬ q ∈ s.dirs) }

/-- `OpenOptions::new().create_new(true).write(true).open(p)`: fails if the
parent directory does not exist or `p` already exists. -/
def open_create_new (s : FsState) (p : FPath) : Except Unit FsState :=
  if p.dropLast ∈ s.dirs && ¬ fsExists s p then
    .ok { s with files := s.files ++ [(p, [])] }
  else .error ()

/-- Append bytes to an existing file (`write` / `write_all`). -/
def appendFile (s : FsState) (p : FPath) (bytes : Str) : FsState :=
  { s with files := s.files.map (fun f => if f.1 = p then (f.1, f.2 ++ bytes) else f) }

/-- Replace the path prefix `a` by `b`. -/
def replacePrefixPath (a b p : FPath) : FPath :=
  if a.isPrefixOf p then b ++ p.drop a.length else p

/-- `tokio::fs::rename` on a directory: the source must exist as a directory,
the target must not exist and its parent must exist; the whole subtree is
relocated. -/
def renameDir (s : FsState) (a b : FPath) : Except Unit FsState :=
  if a ∈ s.dirs && ¬ fsExists s b && b.dropLast ∈ s.dirs then
    .ok { dirs := s.dirs.map (replacePrefixPath a b),
          files := s.files.map (fun f => (replacePrefixPath a b f.1, f.2)) }
  else .error ()

/-- `tokio::fs::remove_file`. -/
def removeFile (s : FsState) (p : FPath) : Except Unit FsState :=
  if p ∈ s.files.map (fun f => f.1) then
    .ok { s with files := s.files.filter (fun f => ¬ f.1 = p) }
  else .error ()

/-- `tokio::fs::remove_dir`: the directory must exist and be empty. -/
def removeDirFs (s : FsState) (p : FPath) : Except Unit FsState :=
  if p ∈ s.dirs
     && s.dirs.all (fun d => ¬ (p.isPrefixOf d && ¬ d = p))
     && s.files.all (fun f => ¬ p.isPrefixOf f.1) then
    .ok { s with dirs := s.dirs.filter (fun d => ¬ d = p) }
  else .error ()

/-- `FsBlobStorage::directory_path_for_key` (lines 155-167): four shard
levels (1/3/2/2 characters of the hyphenated UUID) then the full UUID. -/
def directory_path_for_key (root : FPath) (key : String) : FPath :=
  root ++ [(key.take 1), ((key.drop 1).take 3), ((key.drop 4).take 2),
           ((key.drop 6).take 2), key]

/-- Placeholder for the serialized `BlobMetaData` digest record: no claim
depends on its value, only on where it is written. -/
def metadataBytes (content : Str) : Str := content

/-- The streaming loop of `do_insert`: write each chunk to the data file,
stopping with the stream's error if a chunk fails. -/
def writeChunks (p : FPath) : FsState → List (Except Unit Str) → Str →
    (FsState × Except Unit Str)
  | s, [], acc => (s, .ok acc)
  | s, .error _ :: _, _ => (s, .error ())
  | s, .ok bytes :: rest, acc => writeChunks p (appendFile s p bytes) rest (acc ++ bytes)

/-- `FsBlobStorage::do_insert` (lines 169-223): create `data` inside
`directory_path` (the path it is HANDED, see `insert`), stream the chunks into
it, then create and fill `metadata.json`. -/
def do_insert (s0 : FsState) (directory_path : FPath)
    (data : List (Except Unit Str)) : FsState × Except Unit Unit :=
  let data_path := directory_path ++ ["data"]
  match open_create_new s0 data_path with
  | .error _ => (s0, .error ())
  | .ok s1 =>
    match writeChunks data_path s1 data [] with
    | (s2, .error _) => (s2, .error ())
    | (s2, .ok content) =>
      match open_create_new s2 (directory_path ++ ["metadata.json"]) with
      | .error _ => (s2, .error ())
      | .ok s3 =>
        (appendFile s3 (directory_path ++ ["metadata.json"]) (metadataBytes content),
         .ok ())

/-- `FsBlobStorage::delete` (lines 301-336): rename `<uuid>` to
`<uuid>.deleting`, remove every file inside (a sub-directory entry makes
`remove_file` fail), then remove the emptied directory. -/
def fsDelete (root : FPath) (s : FsState) (key : String) :
    FsState × Except Unit Bool :=
  let directory_path := directory_path_for_key root key
  if fsExists s directory_path then
    let temp_path := directory_path.dropLast ++ [key ++ ".deleting"]
    match renameDir s directory_path temp_path with
    | .error _ => (s, .error ())
    | .ok s1 =>
      let entries := (s1.files.map (fun f => f.1) ++ s1.dirs).filter
        (fun p => p.dropLast = temp_path)
      let rec removeAll (s : FsState) : List FPath → FsState × Except Unit Unit
        | [] => (s, .ok ())
        | p :: rest =>
          match removeFile s p with
          | .error _ => (s, .error ())
          | .ok s' => removeAll s' rest
      match removeAll s1 entries with
      | (s2, .error _) => (s2, .error ())
      | (s2, .ok _) =>
        match removeDirFs s2 temp_path with
        | .error _ => (s2, .error ())
        | .ok s3 => (s3, .ok true)
  else (s, .ok false)

/-- `FsBlobStorage::insert` (lines 231-260): create the sibling staging
directory `<parent>/<uuid>.inserting`, call `do_insert` with
`directory_path.clone()` — the FINAL directory path — then on success rename
staging to final, on failure best-effort `delete(key)` and return the error. -/
def fsInsert (root : FPath) (s0 : FsState) (key : String)
    (data : List (Except Unit Str)) : FsState × Except Unit String :=
  let directory_path := directory_path_for_key root key
  let temp_directory_path := directory_path.dropLast ++ [key ++ ".inserting"]
  match create_dir_all s0 temp_directory_path with
  | .error _ => (s0, .error ())
  | .ok s1 =>
    match do_insert s1 directory_path data with
    | (s2, .ok _) =>
      match renameDir s2 temp_directory_path directory_path with
      | .error _ => (s2, .error ())
      | .ok s3 => (s3, .ok key)
    | (s2, .error _) =>
      let (s3, _) := fsDelete root s2 key
      (s3, .error ())

/-!
## `FsBlobStorage::fsck` (`fs_blob_storage.rs` lines 45-153)

A directory tree: each directory node carries whether its grace period has
expired (`has_expired_grace_period`, a clock/birth-time query) and its
entries.  `Uuid::parse_str(name).is_ok` and the external reference oracle
`is_referenced` are parameters (`iu`, `ir`).
-/

/-- A node of the blob store's on-disk tree. -/
inductive FsNode where
  | file : FsNode
  | dir (expired : Bool) (entries : List (String × FsNode)) : FsNode

/-- `FsBlobStorage::is_temp_folder`: name ends in `.inserting` or
`.deleting`. -/
def isTempName (name : String) : Bool :=
  name.endsWith ".inserting" || name.endsWith ".deleting"

mutual
/-- `FsBlobStorage::fsck_rec` on one directory's entry list: returns the
surviving entries and the `non_empty` flag.  Levels deeper than 7 are skipped
and reported as non-empty. -/
def fsck_rec (iu ir : String → Bool) (lo : Bool) (level : Nat)
    (entries : List (String × FsNode)) : List (String × FsNode) × Bool :=
  if level > 7 then (entries, true)
  else fsck_go iu ir lo level entries
termination_by sizeOf entries + 1

/-- The entry loop of `fsck_rec`: each entry is handled independently;
`non_empty` is the OR over the entries that remain. -/
def fsck_go (iu ir : String → Bool) (lo : Bool) (level : Nat) :
    List (String × FsNode) → List (String × FsNode) × Bool
  | [] => ([], false)
  | (name, .file) :: rest =>
    let r := fsck_go iu ir lo level rest
    ((name, .file) :: r.1, true)
  | (name, .dir expired ch) :: rest =>
    let r := fsck_go iu ir lo level rest
    let remains1 : Bool :=
      if expired && isTempName name then lo
      else if iu name && expired && ¬ ir name then lo
      else true
    if remains1 then
      let sub := fsck_rec iu ir lo (level + 1) ch
      if sub.2 then ((name, .dir expired sub.1) :: r.1, true)
      else (r.1, r.2)
    else (r.1, r.2)
termination_by entries => sizeOf entries
end

/-!
## Claim-side specification definitions

`claimTimestampRule` / `claimSnapshotSpec` transcribe the words of claim C4
(the snapshot `<rest>` grammar as the claim states it); they are compared with
the source embedding in the C4 theorem.
-/

/-- Claim C4, step 1: try the trailing 16 characters of `rest` against
`-\d{8}\.\d{6}`; on match the timestamp is those 15 characters (after the
leading `-`), and the classifier is the remainder with a leading `-`
stripped, or none. -/
def claimTimestampRule (rest : Str) : Option (Option Str × Str) :=
  if 16 ≤ rest.length && timestampRegexMatch (rest.drop (rest.length - 16)) then
    let remainder := rest.take (rest.length - 16)
    some (if remainder.head? = some 45 then some (remainder.drop 1) else none,
          rest.drop (rest.length - 15))
  else none

/-- Claim C4, full strategy: step 1; otherwise split at the last `-`, parse
the suffix as a non-negative integer build number, retry step 1 on the
prefix; if both fail, reject. -/
def claimSnapshotSpec (rest : Str) : Option (Option Str × Str × Option Nat) :=
  match claimTimestampRule rest with
  | some (c, ts) => some (c, ts, none)
  | none =>
    match rfindByte rest 45 with
    | none => none
    | some last_dash =>
      match parseU32 (rest.drop (last_dash + 1)) with
      | none => none
      | some n =>
        match claimTimestampRule (rest.take last_dash) with
        | some (c, ts) => some (c, ts, some n)
        | none => none

/-- All bytes ASCII (`< 128`). -/
def allAscii (s : Str) : Bool := s.all (fun b => b < 128)

/-- The head byte, if any, is not a UTF-8 continuation byte. -/
def headNotCont (s : Str) : Bool :=
  match s.head? with
  | none => true
  | some b => b < 128 || 192 ≤ b

/-- UTF-8 bytes of `'€'` (a three-byte character). -/
def euroB : Str := [226, 130, 172]

/-- The repository-relative path `"g//v-SNAPSHOT/v-SNAPSHOT€€€€€€"`:
a syntactically reachable input on which `parse_maven_path` panics (the
slice at `file_name.len() - 16` falls inside the second `'€'`). -/
def c10path : Str := strB "g//v-SNAPSHOT/v-SNAPSHOT" ++
  euroB ++ euroB ++ euroB ++ euroB ++ euroB ++ euroB

/-- The artifact reference `org.foo:bar:1.2.3` (unclassified, `.jar`) used to
exercise the formatter/parser round trip. -/
def c1ref : MavenArtifactRef :=
  ⟨strB "org.foo", strB "bar", .Release (strB "1.2.3"), .Unclassified, strB ".jar"⟩

/-- A concrete `HttpBodyValidator` instance over accumulated bytes, whose
`do_validate` accepts exactly the empty accumulation (so any nonempty body
fails validation) — used to exercise the validating-body state machine. -/
def accValidator : Validator Str :=
  ⟨fun st d => st ++ d, fun st => st.isEmpty⟩

/-- A concrete recorded version list (one release, one snapshot) for the
artifact-metadata derivation. -/
def c9versions : List (MavenVersion × Str) :=
  [(.Release (strB "1.0"), strB "20240101000000"),
   (.Snapshot (strB "2.0-SNAPSHOT") (strB "20240202.000000") none,
    strB "20240202000000")]

/-- A concrete `artifact_versions` index holding `c9versions` under
group `g`, artifact `a`. -/
def c9store : ArtifactVersions := [(strB "g", [(strB "a", c9versions)])]

/-!
# Theorems

Helper lemmas about the byte-string primitives, then one theorem (plus
witness / counterexample where required) per claim.
-/

theorem isPrefixOf_append_self : ∀ (xs ys : Str), xs.isPrefixOf (xs ++ ys) = true := by
  intro xs ys
  induction xs with
  | nil => simp [List.isPrefixOf]
  | cons a as ih => simp [List.isPrefixOf, ih]

theorem isPrefixOf_self (xs : Str) : xs.isPrefixOf xs = true := by
  have h := isPrefixOf_append_self xs []
  rwa [List.append_nil] at h

theorem isCharBoundary_of_get {s : Str} {i b : Nat} (hg : s.get? i = some b)
    (hb : b < 128 ∨ 192 ≤ b) : isCharBoundary s i = true := by
  unfold isCharBoundary
  rw [hg]
  rcases hb with h | h <;> simp [h]

theorem isCharBoundary_length (s : Str) : isCharBoundary s s.length = true := by
  unfold isCharBoundary
  rw [List.get?_eq_none.mpr (Nat.le_refl _)]
  simp

theorem isCharBoundary_of_ascii {s : Str} {i : Nat} (h : allAscii s = true)
    (hi : i ≤ s.length) : isCharBoundary s i = true := by
  rcases Nat.lt_or_ge i s.length with hlt | hge
  · rcases hg : s.get? i with _ | b
    · rw [List.get?_eq_none] at hg; omega
    · have hmem : b ∈ s := List.get?_mem hg
      have hb := List.all_eq_true.mp h _ hmem
      exact isCharBoundary_of_get hg (Or.inl (by simpa using hb))
  · have : i = s.length := Nat.le_antisymm hi hge
    subst this
    exact isCharBoundary_length s

theorem sliceFrom_of_boundary {s : Str} {i : Nat} (h : isCharBoundary s i = true) :
    sliceFrom s i = some (s.drop i) := by
  unfold sliceFrom
  simp [h]

theorem sliceTo_of_boundary {s : Str} {i : Nat} (h : isCharBoundary s i = true) :
    sliceTo s i = some (s.take i) := by
  unfold sliceTo
  simp [h]

theorem rfindByte_eq_none {s : Str} {c : Nat} (h : ¬ c ∈ s) : rfindByte s c = none := by
  induction s with
  | nil => rfl
  | cons b rest ih =>
    have hb : ¬ b = c := fun he => h (he ▸ List.mem_cons_self b rest)
    have hr : ¬ c ∈ rest := fun hm => h (List.mem_cons_of_mem _ hm)
    unfold rfindByte
    rw [ih hr]
    simp [hb]

theorem rfindByte_append_last (xs ys : Str) (c : Nat) (h : ¬ c ∈ ys) :
    rfindByte (xs ++ c :: ys) c = some xs.length := by
  induction xs with
  | nil =>
    rw [List.nil_append]
    unfold rfindByte
    rw [rfindByte_eq_none h]
    simp
  | cons b rest ih =>
    rw [List.cons_append]
    unfold rfindByte
    rw [ih]
    simp

theorem rfindByte_get {s : Str} {c i : Nat} (h : rfindByte s c = some i) :
    s.get? i = some c := by
  induction s generalizing i with
  | nil => simp [rfindByte] at h
  | cons b rest ih =>
    unfold rfindByte at h
    rcases hr : rfindByte rest c with _ | j
    · rw [hr] at h
      by_cases hb : b = c
      · simp [hb] at h
        subst hb
        simp [← h]
      · simp [hb] at h
    · rw [hr] at h
      simp at h
      subst h
      simpa using ih hr

theorem rfindByte_lt_length {s : Str} {c i : Nat} (h : rfindByte s c = some i) :
    i < s.length := by
  have := rfindByte_get h
  by_contra hge
  rw [List.get?_eq_none.mpr (Nat.le_of_not_lt hge)] at this
  exact Option.noConfusion this

theorem allAscii_take {s : Str} (n : Nat) (h : allAscii s = true) :
    allAscii (s.take n) = true := by
  refine List.all_eq_true.mpr ?_
  intro b hb
  exact List.all_eq_true.mp h _ (List.mem_of_mem_take hb)

theorem allAscii_drop {s : Str} (n : Nat) (h : allAscii s = true) :
    allAscii (s.drop n) = true := by
  refine List.all_eq_true.mpr ?_
  intro b hb
  exact List.all_eq_true.mp h _ (List.mem_of_mem_drop hb)

theorem containsSub_of_isSuffixOf {s pat : Str} (h : pat.isSuffixOf s = true) :
    containsSub s pat = true := by
  have hsuf : pat <:+ s := by
    rwa [List.isSuffixOf_iff_suffix] at h
  obtain ⟨t, ht⟩ := hsuf
  refine List.any_eq_true.mpr ?_
  refine ⟨t.length, List.mem_range.mpr ?_, ?_⟩
  · have : t.length ≤ s.length := by
      rw [← ht]
      simp
    omega
  · rw [← ht, List.drop_left]
    exact isPrefixOf_self pat

theorem pct_of_ascii (s : Str) (h : allAscii s = true) :
    parse_classifier_and_timestamp s =
      (match claimTimestampRule s with
       | some (c, ts) => .ok (c, ts)
       | none => .error) := by
  unfold parse_classifier_and_timestamp claimTimestampRule
  by_cases hl : s.length < 16
  · have h16 : ¬ (16 ≤ s.length) := by omega
    simp [hl, h16]
  · have h16 : 16 ≤ s.length := Nat.le_of_not_lt hl
    have hsf16 := sliceFrom_of_boundary
      (isCharBoundary_of_ascii h (show s.length - 16 ≤ s.length by omega))
    have hst16 := sliceTo_of_boundary
      (isCharBoundary_of_ascii h (show s.length - 16 ≤ s.length by omega))
    have hsf15 := sliceFrom_of_boundary
      (isCharBoundary_of_ascii h (show s.length - 15 ≤ s.length by omega))
    by_cases hm : timestampRegexMatch (s.drop (s.length - 16)) = true
    · by_cases hh : (s.take (s.length - 16)).head? = some 45
      · have hlen : 1 ≤ (s.take (s.length - 16)).length := by
          cases htk : s.take (s.length - 16) with
          | nil => rw [htk] at hh; simp at hh
          | cons a t => simp
        have h1 := sliceFrom_of_boundary
          (isCharBoundary_of_ascii (allAscii_take (s.length - 16) h) hlen)
        simp [hl, h16, hm, hh, hsf16, hst16, hsf15, h1]
      · simp [hl, h16, hm, hh, hsf16, hst16, hsf15]
    · have hm' : timestampRegexMatch (s.drop (s.length - 16)) = false :=
        Bool.eq_false_iff.mpr hm
      simp [hl, hm', hsf16]

theorem parse_decomp (aid vs tail : Str) (hvsA : allAscii vs = true)
    (hvs : vs ≠ []) (htail : tail ≠ []) (hhead : headNotCont tail = true) :
    parse_maven_filename (aid ++ 45 :: (vs ++ tail)) aid vs =
      parse_filename_tail vs tail := by
  have hrw : aid ++ 45 :: (vs ++ tail) = (aid ++ [45]) ++ (vs ++ tail) := by simp
  have hl45 : (aid ++ [45]).length = aid.length + 1 := by simp
  have htlen : 1 ≤ tail.length := List.length_pos.mpr htail
  obtain ⟨v0, vrest, hv⟩ : ∃ v0 vrest, vs = v0 :: vrest := by
    cases vs with
    | nil => exact absurd rfl hvs
    | cons a t => exact ⟨a, t, rfl⟩
  have hv0 : v0 < 128 := by
    have := List.all_eq_true.mp hvsA v0 (by rw [hv]; exact List.mem_cons_self _ _)
    simpa using this
  obtain ⟨t0, trest, ht⟩ : ∃ t0 trest, tail = t0 :: trest := by
    cases tail with
    | nil => exact absurd rfl htail
    | cons a t => exact ⟨a, t, rfl⟩
  have ht0 : t0 < 128 ∨ 192 ≤ t0 := by
    unfold headNotCont at hhead
    rw [ht] at hhead
    simp at hhead
    rcases hhead with h1 | h1
    · exact Or.inl h1
    · exact Or.inr h1
  unfold parse_maven_filename
  have hnotlt : ¬ ((aid ++ 45 :: (vs ++ tail)).length <
      aid.length + vs.length + 2) := by
    simp
    omega
  have hpre : aid.isPrefixOf (aid ++ 45 :: (vs ++ tail)) = true :=
    isPrefixOf_append_self _ _
  have hget1 : (aid ++ 45 :: (vs ++ tail)).get? (aid.length + 1) = some v0 := by
    rw [hrw, ← hl45, List.get?_append_right (Nat.le_refl _)]
    simp [hv]
  have hb1 : isCharBoundary (aid ++ 45 :: (vs ++ tail)) (aid.length + 1) = true :=
    isCharBoundary_of_get hget1 (Or.inl hv0)
  have hdrop1 : (aid ++ 45 :: (vs ++ tail)).drop (aid.length + 1) = vs ++ tail := by
    rw [hrw, ← hl45, List.drop_left]
  have hpre2 : vs.isPrefixOf (vs ++ tail) = true := isPrefixOf_append_self _ _
  have hget2 : (vs ++ tail).get? vs.length = some t0 := by
    rw [List.get?_append_right (Nat.le_refl _)]
    simp [ht]
  have hb2 : isCharBoundary (vs ++ tail) vs.length = true :=
    isCharBoundary_of_get hget2 ht0
  simp [hnotlt, hpre, hpre2, sliceFrom_of_boundary hb1, hdrop1,
        sliceFrom_of_boundary hb2, List.drop_left]
  intro hcontra
  exfalso
  omega

theorem parse_tail_ext (vs rest ext : Str) (hx : ¬ 46 ∈ ext) :
    parse_filename_tail vs (rest ++ 46 :: ext) =
      parse_filename_branches vs rest (46 :: ext) := by
  unfold parse_filename_tail
  rw [rfindByte_append_last rest ext 46 hx]
  simp [List.take_left, List.drop_left]

theorem headNotCont_of_ascii_append (rest ext : Str) (h : allAscii rest = true) :
    headNotCont (rest ++ 46 :: ext) = true := by
  cases rest with
  | nil => simp [headNotCont]
  | cons b t =>
    have hb : b < 128 := by
      have := List.all_eq_true.mp h b (List.mem_cons_self _ _)
      simpa using this
    simp [headNotCont, hb]

theorem parse_branches_snapshot (vs rest ext' : Str)
    (hvs : snapshotLit.isSuffixOf vs = true) (hr : allAscii rest = true) :
    parse_filename_branches vs rest ext' =
      (match claimSnapshotSpec rest with
       | some (c, ts, bn) => .ok ⟨.Snapshot vs ts bn, c, ext'⟩
       | none => .error) := by
  unfold parse_filename_branches claimSnapshotSpec
  have hcont : containsSub vs snapshotLit = true := containsSub_of_isSuffixOf hvs
  rw [pct_of_ascii rest hr]
  rcases h1 : claimTimestampRule rest with _ | ⟨c, ts⟩
  · rcases h2 : rfindByte rest 45 with _ | last_dash
    · simp [hcont, hvs, h1, h2]
    · have hld : last_dash < rest.length := rfindByte_lt_length h2
      have hsf := sliceFrom_of_boundary
        (isCharBoundary_of_ascii hr (show last_dash + 1 ≤ rest.length by omega))
      rcases h3 : parseU32 (rest.drop (last_dash + 1)) with _ | n
      · simp [hcont, hvs, h1, h2, hsf, h3]
      · have hpct2 := pct_of_ascii (rest.take last_dash) (allAscii_take _ hr)
        rcases h4 : claimTimestampRule (rest.take last_dash) with _ | ⟨c2, ts2⟩
        · rw [h4] at hpct2
          simp [hcont, hvs, h1, h2, hsf, h3, hpct2, h4]
        · rw [h4] at hpct2
          simp [hcont, hvs, h1, h2, hsf, h3, hpct2, h4]
  · simp [hcont, hvs, h1]

theorem parse_branches_release (vs rest ext' : Str)
    (hns : containsSub vs snapshotLit = false) (hr : allAscii rest = true) :
    parse_filename_branches vs rest ext' =
      (if rest.isEmpty then .ok ⟨.Release vs, none, ext'⟩
       else if rest.head? = some 45 then .ok ⟨.Release vs, some (rest.drop 1), ext'⟩
       else .error) := by
  unfold parse_filename_branches
  cases rest with
  | nil => simp [hns]
  | cons b t =>
    by_cases hb : b = 45
    · subst hb
      have hsf := sliceFrom_of_boundary
        (isCharBoundary_of_ascii hr (show 1 ≤ (45 :: t).length by simp))
      simp [hns, hsf]
    · simp [hns, hb]

/-- Claim C4: for every filename `artifactId-versionString<rest>.ext`
(version ending in `-SNAPSHOT`, ASCII version and rest, dot-free extension
tail), `parse_maven_filename` realizes the claimed two-step snapshot
strategy: first the trailing-16-character timestamp rule on `<rest>`
(classifier = remainder with a leading `-` stripped, else none; no build
number), otherwise split at the last `-`, parse the suffix as a non-negative
integer build number and retry the timestamp rule on the prefix; reject when
both fail. -/
theorem claimC4_snapshot_filename_grammar (aid vs rest ext : Str)
    (hvsA : allAscii vs = true) (hr : allAscii rest = true)
    (hvs : snapshotLit.isSuffixOf vs = true) (hx : ¬ 46 ∈ ext) :
    parse_maven_filename (aid ++ 45 :: (vs ++ (rest ++ 46 :: ext))) aid vs =
      (match claimSnapshotSpec rest with
       | some (c, ts, bn) => .ok ⟨.Snapshot vs ts bn, c, 46 :: ext⟩
       | none => .error) := by
  have hvsne : vs ≠ [] := by
    intro he
    rw [he] at hvs
    simp [List.isSuffixOf, snapshotLit, strB] at hvs
  have htailne : rest ++ 46 :: ext ≠ [] := by
    intro he
    have := congrArg List.length he
    simp at this
  rw [parse_decomp aid vs (rest ++ 46 :: ext) hvsA hvsne htailne
        (headNotCont_of_ascii_append rest ext hr),
      parse_tail_ext vs rest ext hx,
      parse_branches_snapshot vs rest (46 :: ext) hvs hr]

/-- Witness for C4 at the claim's own example
`a-1.0.0-SNAPSHOT-11111111.111111-22222222.222222-5.jar`: the hypotheses hold
and the parse yields classifier `11111111.111111`, timestamp
`22222222.222222`, build number 5, extension `.jar`. -/
theorem claimC4_snapshot_filename_grammar_witness :
    allAscii (strB "1.0.0-SNAPSHOT") = true ∧
    allAscii (strB "-11111111.111111-22222222.222222-5") = true ∧
    snapshotLit.isSuffixOf (strB "1.0.0-SNAPSHOT") = true ∧
    ¬ 46 ∈ strB "jar" ∧
    parse_maven_filename
      (strB "a" ++ 45 :: (strB "1.0.0-SNAPSHOT" ++
        (strB "-11111111.111111-22222222.222222-5" ++ 46 :: strB "jar")))
      (strB "a") (strB "1.0.0-SNAPSHOT") =
      .ok ⟨.Snapshot (strB "1.0.0-SNAPSHOT") (strB "22222222.222222") (some 5),
           some (strB "11111111.111111"), strB ".jar"⟩ := by
  refine ⟨by decide, by decide, by decide, by decide, ?_⟩
  rw [claimC4_snapshot_filename_grammar (strB "a") (strB "1.0.0-SNAPSHOT")
        (strB "-11111111.111111-22222222.222222-5") (strB "jar")
        (by decide) (by decide) (by decide) (by decide)]
  decide

/-- Counterexample to claim C5 as stated: the version string `1-SNAPSHOT-p`
does not end in `-SNAPSHOT`, so the claim requires `a-1-SNAPSHOT-p.jar` to
parse as an unclassified release; the code dispatches on `contains`
(not `ends_with`) and rejects the filename. -/
theorem claimC5_counterexample :
    snapshotLit.isSuffixOf (strB "1-SNAPSHOT-p") = false ∧
    parse_maven_filename (strB "a-1-SNAPSHOT-p.jar") (strB "a")
      (strB "1-SNAPSHOT-p") = .error := by
  constructor
  · decide
  · decide

/-- Claim C5, amended: the release grammar applies to version strings that do
not CONTAIN `-SNAPSHOT` (empty `<rest>` is an unclassified release, `<rest>`
starting with `-` carries the classifier, anything else is rejected); a
version string that contains `-SNAPSHOT` without ending in it is rejected
outright; the snapshot grammar runs only when the version string ends in
`-SNAPSHOT` (case-sensitive). -/
theorem claimC5_release_grammar (aid vs rest ext : Str)
    (hvsA : allAscii vs = true) (hvsne : vs ≠ [])
    (hr : allAscii rest = true) (hx : ¬ 46 ∈ ext) :
    (containsSub vs snapshotLit = false →
      parse_maven_filename (aid ++ 45 :: (vs ++ (rest ++ 46 :: ext))) aid vs =
        (if rest.isEmpty then .ok ⟨.Release vs, none, 46 :: ext⟩
         else if rest.head? = some 45 then
           .ok ⟨.Release vs, some (rest.drop 1), 46 :: ext⟩
         else .error)) ∧
    (containsSub vs snapshotLit = true → snapshotLit.isSuffixOf vs = false →
      parse_maven_filename (aid ++ 45 :: (vs ++ (rest ++ 46 :: ext))) aid vs =
        .error) := by
  have htailne : rest ++ 46 :: ext ≠ [] := by
    intro he
    have := congrArg List.length he
    simp at this
  have hdec := parse_decomp aid vs (rest ++ 46 :: ext) hvsA hvsne htailne
    (headNotCont_of_ascii_append rest ext hr)
  constructor
  · intro hns
    rw [hdec, parse_tail_ext vs rest ext hx, parse_branches_release vs rest _ hns hr]
  · intro hcont hnosuf
    rw [hdec, parse_tail_ext vs rest ext hx]
    unfold parse_filename_branches
    simp [hcont, hnosuf]

/-- Witness for C5 at `a-1.0.0-cla.jar` / version `1.0.0`: the hypotheses
hold and the release branch yields classifier `cla`, extension `.jar`. -/
theorem claimC5_release_grammar_witness :
    allAscii (strB "1.0.0") = true ∧ strB "1.0.0" ≠ [] ∧
    allAscii (strB "-cla") = true ∧ ¬ 46 ∈ strB "jar" ∧
    containsSub (strB "1.0.0") snapshotLit = false ∧
    parse_maven_filename
      (strB "a" ++ 45 :: (strB "1.0.0" ++ (strB "-cla" ++ 46 :: strB "jar")))
      (strB "a") (strB "1.0.0") =
      .ok ⟨.Release (strB "1.0.0"), some (strB "cla"), strB ".jar"⟩ := by
  refine ⟨by decide, by decide, by decide, by decide, by decide, ?_⟩
  rw [(claimC5_release_grammar (strB "a") (strB "1.0.0") (strB "-cla")
        (strB "jar") (by decide) (by decide) (by decide) (by decide)).1
      (by decide)]
  decide

/-- Claim C1 (code bug): the round trip fails even for the plain release
reference `org.foo:bar:1.2.3` with extension `.jar` — `parse_maven_path`
passes the filename segment to `parse_maven_filename` with its leading `/`
still attached (`split_at(last_slash)` without the `[1..]` strip applied to
the other segments), so the artifact-id prefix check fails on every formatted
path. -/
theorem claimC1_roundtrip_parse_fails :
    as_maven_path c1ref = strB "org/foo/bar/1.2.3/bar-1.2.3.jar" ∧
    parse_maven_path (as_maven_path c1ref) = .error := by
  constructor
  · decide
  · decide

/-- Claim C10 (code bug): `parse_maven_path` panics on the valid UTF-8 input
`g//v-SNAPSHOT/v-SNAPSHOT€€€€€€` — the empty artifact-id segment lets the
prefix checks pass, and the byte slice at `file_name.len() - 16` inside
`parse_classifier_and_timestamp` falls in the middle of a `'€'`. -/
theorem claimC10_parse_panics : parse_maven_path c10path = .panicked := by
  decide

/-- Counterexample to claim C3 as stated: decision `Download`, successful
upstream fetch, failing blob-store insert — the coordinator propagates the
insert error via `?` and never calls `register_failed_download`. -/
theorem claimC3_counterexample :
    (get_artifact (⟨.ok .Download, fun _ => .ok (some ()), .ok (), .error (),
        .ok ()⟩ : CoordEnv Unit Unit)).2 = false ∧
    (get_artifact (⟨.ok .Download, fun _ => .ok (some ()), .ok (), .error (),
        .ok ()⟩ : CoordEnv Unit Unit)).1 = .error .insertErr := by
  constructor
  · rfl
  · rfl

/-- Claim C3, amended: `register_failed_download` is invoked exactly when the
decision is `Download` and the upstream fetch itself fails; failures of the
blob-store insert, `register_artifact`, or the final blob-store get propagate
without it. -/
theorem claimC3_register_failed_iff_fetch_error {κ β : Type}
    (env : CoordEnv κ β) :
    (get_artifact env).2 = true ↔
      (env.decide = .ok .Download ∧ env.download = .error ()) := by
  rcases env with ⟨dec, bg, dl, ins, reg⟩
  rcases dec with u | d
  · simp [get_artifact]
  · rcases d with k | _ | _
    · rcases hbg : bg k with u | ob
      · simp [get_artifact, hbg]
      · rcases ob with _ | b <;> simp [get_artifact, hbg]
    · rcases dl with u | b
      · cases u
        simp [get_artifact]
      · rcases ins with u2 | k
        · simp [get_artifact]
        · rcases reg with u2 | _
          · simp [get_artifact]
          · rcases hbg : bg k with u2 | ob
            · simp [get_artifact, hbg]
            · rcases ob with _ | b2 <;> simp [get_artifact, hbg]
    · simp [get_artifact]

theorem runPolls_add {σ : Type} (v : Validator σ) (s : VBody σ) (m n : Nat) :
    runPolls v s (m + n) =
      ((runPolls v (runPolls v s m).1 n).1,
       (runPolls v s m).2 ++ (runPolls v (runPolls v s m).1 n).2) := by
  induction m generalizing s with
  | zero => simp [runPolls]
  | succ m ih =>
    have : m + 1 + n = (m + n) + 1 := by omega
    rw [this]
    simp only [runPolls]
    rw [ih (poll_next v s).1]
    simp

theorem runPolls_chunks {σ : Type} (v : Validator σ) (chunks : List Str)
    (σ0 : σ) (suffix : List (Except Unit Str)) :
    runPolls v ⟨(chunks.map .ok) ++ suffix, σ0, false⟩ chunks.length =
      (⟨suffix, chunks.foldl v.add_data σ0, false⟩,
       chunks.map PollOut.chunk) := by
  induction chunks generalizing σ0 with
  | nil => simp [runPolls]
  | cons c cs ih =>
    have hp : poll_next v ⟨.ok c :: (cs.map .ok ++ suffix), σ0, false⟩ =
        (⟨cs.map .ok ++ suffix, v.add_data σ0 c, false⟩, .chunk c) := by
      simp [poll_next]
    simp only [List.map_cons, List.length_cons, List.cons_append, runPolls, hp]
    rw [ih (v.add_data σ0 c)]
    simp

/-- Claim C7: (a) if the validator rejects the accumulated body, polling the
stream `n+1` times (body of `n` chunks) forwards every data chunk in order
and then emits exactly one `failed validation` error, leaving the stream in
the failed state; (b) in the failed state every poll returns the
`polling from failed stream` error and leaves the state — including the
wrapped body — untouched; (c) an upstream error chunk is forwarded once and
also moves the stream to the failed state without consuming the rest of the
body. -/
theorem claimC7_terminal_failure {σ : Type} (v : Validator σ)
    (chunks : List Str) (σ0 : σ)
    (hfail : v.do_validate (chunks.foldl v.add_data σ0) = false) :
    (runPolls v ⟨chunks.map .ok, σ0, false⟩ (chunks.length + 1) =
      (⟨[], chunks.foldl v.add_data σ0, true⟩,
       chunks.map PollOut.chunk ++ [.errFailedValidation])) ∧
    (∀ s : VBody σ, s.is_failed = true →
      poll_next v s = (s, .errPollingFromFailed)) ∧
    (∀ (rest : List (Except Unit Str)) (σ1 : σ),
      runPolls v ⟨(chunks.map .ok) ++ .error () :: rest, σ1, false⟩
          (chunks.length + 1) =
        (⟨rest, chunks.foldl v.add_data σ1, true⟩,
         chunks.map PollOut.chunk ++ [.errUpstream])) := by
  refine ⟨?_, ?_, ?_⟩
  · rw [runPolls_add v _ chunks.length 1]
    have h := runPolls_chunks v chunks σ0 []
    rw [List.append_nil] at h
    rw [h]
    simp [runPolls, poll_next, hfail]
  · intro s hs
    simp [poll_next, hs]
  · intro rest σ1
    rw [runPolls_add v _ chunks.length 1]
    rw [runPolls_chunks v chunks σ1 (.error () :: rest)]
    simp [runPolls, poll_next]

/-- Witness for C7: the accumulating validator rejects the two-chunk body
`[1]`,`[2]`; three polls yield the two chunks followed by the single
`failed validation` error, and the resulting failed state absorbs a further
poll as `polling from failed stream`. -/
theorem claimC7_terminal_failure_witness :
    accValidator.do_validate ([[1], [2]].foldl accValidator.add_data []) = false ∧
    (runPolls accValidator ⟨[[1], [2]].map .ok, [], false⟩
        ([[1], [2]].length + 1)).2 =
      [.chunk [1], .chunk [2], .errFailedValidation] ∧
    poll_next accValidator ⟨[], [1, 2], true⟩ =
      (⟨[], [1, 2], true⟩, .errPollingFromFailed) := by
  have hfail : accValidator.do_validate
      ([[1], [2]].foldl accValidator.add_data []) = false := by decide
  have h := claimC7_terminal_failure accValidator [[1], [2]] [] hfail
  refine ⟨hfail, ?_, ?_⟩
  · rw [h.1]
    rfl
  · exact h.2.1 ⟨[], [1, 2], true⟩ rfl

/-- Claim C8: `decide_get_artifact` returns `Local(key)` iff the
local-artifacts index maps the reference to `key`; otherwise, with a failure
record inside the retry window it returns `Fail` without modifying state,
with an expired record (now − failureTime exceeding 300 s) it evicts the
record and returns `Download`, and with no record it returns `Download`. -/
theorem claimC8_decision_algorithm {ρ κ : Type} [DecidableEq ρ]
    (s : MetaStore ρ κ) (now : Nat) (r : ρ) :
    (∀ k : κ, (decide_get_artifact s now r).2 = .Local k ↔
       lookupA s.local_artifacts r = some k) ∧
    (lookupA s.local_artifacts r = none →
      ∀ t, lookupA s.failed_downloads r = some t →
        (300 < now - t →
          decide_get_artifact s now r =
            ({ s with failed_downloads := eraseA s.failed_downloads r },
             .Download)) ∧
        (¬ 300 < now - t → decide_get_artifact s now r = (s, .Fail))) ∧
    (lookupA s.local_artifacts r = none →
      lookupA s.failed_downloads r = none →
      decide_get_artifact s now r = (s, .Download)) := by
  refine ⟨?_, ?_, ?_⟩
  · intro k
    unfold decide_get_artifact
    rcases hl : lookupA s.local_artifacts r with _ | k0
    · rcases hf : lookupA s.failed_downloads r with _ | t
      · simp
      · by_cases hw : 300 < now - t <;> simp [hw]
    · simp
  · intro hl t hf
    unfold decide_get_artifact
    rw [hl, hf]
    constructor
    · intro hw
      simp [hw]
    · intro hw
      simp [hw]
  · intro hl hf
    unfold decide_get_artifact
    rw [hl, hf]

/-- Witness for C8: a store with no local entry and a failure recorded at
second 10, queried at second 311 (elapsed 301 s > 300): the record is evicted
and the decision is `Download`. -/
theorem claimC8_decision_algorithm_witness :
    decide_get_artifact (⟨[], [(7, 10)]⟩ : MetaStore Nat Nat) 311 7 =
      ((⟨[], []⟩ : MetaStore Nat Nat), .Download) := by
  have h := ((claimC8_decision_algorithm (⟨[], [(7, 10)]⟩ : MetaStore Nat Nat)
    311 7).2.1 rfl 10 rfl).1 (by omega)
  rw [h]
  rfl

theorem strLe_refl (s : Str) : strLe s s = true := by
  induction s with
  | nil => rfl
  | cons a as ih => simp [strLe, ih]

theorem strLe_total (a b : Str) : strLe a b = true ∨ strLe b a = true := by
  induction a generalizing b with
  | nil => exact Or.inl rfl
  | cons x xs ih =>
    cases b with
    | nil => exact Or.inr rfl
    | cons y ys =>
      rcases Nat.lt_trichotomy x y with h | h | h
      · exact Or.inl (by simp [strLe, h])
      · subst h
        rcases ih ys with h2 | h2
        · exact Or.inl (by simp [strLe, h2])
        · exact Or.inr (by simp [strLe, h2])
      · exact Or.inr (by simp [strLe, h])

theorem strLe_trans {a b c : Str} (hab : strLe a b = true)
    (hbc : strLe b c = true) : strLe a c = true := by
  induction a generalizing b c with
  | nil => rfl
  | cons x xs ih =>
    cases b with
    | nil => simp [strLe] at hab
    | cons y ys =>
      cases c with
      | nil => simp [strLe] at hbc
      | cons z zs =>
        simp only [strLe] at hab hbc ⊢
        rcases Nat.lt_trichotomy x y with h1 | h1 | h1
        · rcases Nat.lt_trichotomy y z with h2 | h2 | h2
          · simp [Nat.lt_trans h1 h2]
          · subst h2
            simp [h1]
          · rw [if_neg (by omega), if_pos h2] at hbc
            simp at hbc
        · subst h1
          rw [if_neg (by omega), if_neg (by omega)] at hab
          rcases Nat.lt_trichotomy x z with h2 | h2 | h2
          · simp [h2]
          · subst h2
            rw [if_neg (by omega), if_neg (by omega)] at hbc
            rw [if_neg (by omega), if_neg (by omega)]
            exact ih hab hbc
          · rw [if_neg (by omega), if_pos h2] at hbc
            simp at hbc
        · rw [if_neg (by omega), if_pos h1] at hab
          simp at hab

theorem maxByKeyAux_mem {α : Type} (key : α → Str) (acc : α) (xs : List α) :
    maxByKeyAux key acc xs = acc ∨ maxByKeyAux key acc xs ∈ xs := by
  induction xs generalizing acc with
  | nil => exact Or.inl rfl
  | cons x xs ih =>
    unfold maxByKeyAux
    by_cases h : strLe (key acc) (key x) = true
    · rw [if_pos h]
      rcases ih x with h2 | h2
      · exact Or.inr (by rw [h2]; exact List.mem_cons_self x xs)
      · exact Or.inr (List.mem_cons_of_mem _ h2)
    · rw [if_neg h]
      rcases ih acc with h2 | h2
      · exact Or.inl h2
      · exact Or.inr (List.mem_cons_of_mem _ h2)

theorem maxByKeyAux_le {α : Type} (key : α → Str) (acc : α) (xs : List α) :
    strLe (key acc) (key (maxByKeyAux key acc xs)) = true ∧
    ∀ x ∈ xs, strLe (key x) (key (maxByKeyAux key acc xs)) = true := by
  induction xs generalizing acc with
  | nil => exact ⟨strLe_refl _, by simp⟩
  | cons x xs ih =>
    unfold maxByKeyAux
    by_cases h : strLe (key acc) (key x) = true
    · rw [if_pos h]
      obtain ⟨h1, h2⟩ := ih x
      refine ⟨strLe_trans h h1, ?_⟩
      intro y hy
      rcases List.mem_cons.mp hy with he | hm
      · exact he ▸ h1
      · exact h2 y hm
    · rw [if_neg h]
      obtain ⟨h1, h2⟩ := ih acc
      have hxa : strLe (key x) (key acc) = true := by
        rcases strLe_total (key acc) (key x) with h3 | h3
        · exact absurd h3 h
        · exact h3
      refine ⟨h1, ?_⟩
      intro y hy
      rcases List.mem_cons.mp hy with he | hm
      · exact he ▸ strLe_trans hxa h1
      · exact h2 y hm

/-- Counterexample to claim C9 as stated: a non-empty recorded version list
containing only a snapshot makes the releases-only `max_by_key ... .unwrap()`
panic instead of returning `Some(record)`. -/
theorem claimC9_counterexample :
    get_artifact_metadata
      [(strB "g", [(strB "a",
        [(.Snapshot (strB "1.0-SNAPSHOT") (strB "20240101.000000") none,
          strB "t1")])])]
      (strB "g") (strB "a") = .panicked := by
  decide

/-- Claim C9, amended: for a recorded version list that is non-empty AND
contains at least one `Release` version, `get_artifact_metadata` returns
`Some(record)` with `latest_version` a maximal-timestamp entry of the whole
list, `release_version` a maximal-timestamp entry among the releases,
`versions` the recorded list in insertion order, and `last_updated` the
timestamp of that latest entry; an unknown group/artifact or an empty list
yields `None` (a non-empty all-snapshot list panics, see the
counterexample). -/
theorem claimC9_metadata_derivation :
    (∀ (store : ArtifactVersions) (g a : Str)
       (arts : List (Str × List (MavenVersion × Str)))
       (versions : List (MavenVersion × Str)),
      lookupA store g = some arts → lookupA arts a = some versions →
      versions ≠ [] → (∃ e ∈ versions, isRelease e.1 = true) →
      ∃ lv lu rv rt,
        get_artifact_metadata store g a =
          .ok (some ⟨lv, rv, versions.map (fun e => e.1), lu⟩) ∧
        (lv, lu) ∈ versions ∧
        (∀ e ∈ versions, strLe e.2 lu = true) ∧
        (rv, rt) ∈ versions ∧ isRelease rv = true ∧
        (∀ e ∈ versions, isRelease e.1 = true → strLe e.2 rt = true)) ∧
    (∀ (store : ArtifactVersions) (g a : Str),
      lookupA store g = none → get_artifact_metadata store g a = .ok none) ∧
    (∀ (store : ArtifactVersions) (g a : Str) arts,
      lookupA store g = some arts → lookupA arts a = none →
      get_artifact_metadata store g a = .ok none) ∧
    (∀ (store : ArtifactVersions) (g a : Str) arts,
      lookupA store g = some arts → lookupA arts a = some [] →
      get_artifact_metadata store g a = .ok none) := by
  refine ⟨?_, ?_, ?_, ?_⟩
  · intro store g a arts versions hg ha hne hrel
    cases versions with
    | nil => exact absurd rfl hne
    | cons z zs =>
      rcases hmx : maxByKeyAux (fun e : MavenVersion × Str => e.2) z zs
        with ⟨mv, mt⟩
      have hmm := maxByKeyAux_mem (fun e : MavenVersion × Str => e.2) z zs
      have hml := maxByKeyAux_le (fun e : MavenVersion × Str => e.2) z zs
      rw [hmx] at hmm hml
      rcases hfil : (z :: zs).filter (fun e => isRelease e.1) with _ | ⟨w, ws⟩
      · exfalso
        obtain ⟨e, he, hrele⟩ := hrel
        have : e ∈ (z :: zs).filter (fun e => isRelease e.1) :=
          List.mem_filter.mpr ⟨he, hrele⟩
        rw [hfil] at this
        simp at this
      · rcases hmrx : maxByKeyAux (fun e : MavenVersion × Str => e.2) w ws
          with ⟨rv, rt⟩
        have hmrm := maxByKeyAux_mem (fun e : MavenVersion × Str => e.2) w ws
        have hmrl := maxByKeyAux_le (fun e : MavenVersion × Str => e.2) w ws
        rw [hmrx] at hmrm hmrl
        have hmrin : (rv, rt) ∈ (z :: zs).filter (fun e => isRelease e.1) := by
          rw [hfil]
          rcases hmrm with he | hm
          · exact he ▸ List.mem_cons_self w ws
          · exact List.mem_cons_of_mem _ hm
        have hmr2 := List.mem_filter.mp hmrin
        refine ⟨mv, mt, rv, rt, ?_, ?_, ?_, hmr2.1, by simpa using hmr2.2, ?_⟩
        · simp only [get_artifact_metadata, hg, ha]
          simp [maxByKey, hmx, hfil, hmrx]
        · rcases hmm with he | hm
          · exact he ▸ List.mem_cons_self z zs
          · exact List.mem_cons_of_mem _ hm
        · intro e he
          rcases List.mem_cons.mp he with he2 | hm
          · exact he2 ▸ hml.1
          · exact hml.2 e hm
        · intro e he hrele
          have : e ∈ (z :: zs).filter (fun x => isRelease x.1) :=
            List.mem_filter.mpr ⟨he, hrele⟩
          rw [hfil] at this
          rcases List.mem_cons.mp this with he2 | hm
          · exact he2 ▸ hmrl.1
          · exact hmrl.2 e hm
  · intro store g a hg
    simp only [get_artifact_metadata, hg]
  · intro store g a arts hg ha
    simp only [get_artifact_metadata, hg, ha]
  · intro store g a arts hg ha
    simp only [get_artifact_metadata, hg, ha]
    rfl

/-- Witness for C9 at `c9store` (one release, one snapshot): the derivation
succeeds with the expected components. -/
theorem claimC9_metadata_derivation_witness :
    ∃ lv lu rv rt,
      get_artifact_metadata c9store (strB "g") (strB "a") =
        .ok (some ⟨lv, rv, c9versions.map (fun e => e.1), lu⟩) ∧
      (lv, lu) ∈ c9versions ∧
      (∀ e ∈ c9versions, strLe e.2 lu = true) ∧
      (rv, rt) ∈ c9versions ∧ isRelease rv = true ∧
      (∀ e ∈ c9versions, isRelease e.1 = true → strLe e.2 rt = true) :=
  claimC9_metadata_derivation.1 c9store (strB "g") (strB "a")
    [(strB "a", c9versions)] c9versions (by decide) (by decide) (by decide)
    ⟨(.Release (strB "1.0"), strB "20240101000000"), by decide, by decide⟩

theorem fsck_rec_eq_go (iu ir : String → Bool) (lo : Bool) (level : Nat)
    (es : List (String × FsNode)) (h : ¬ 7 < level) :
    fsck_rec iu ir lo level es = fsck_go iu ir lo level es := by
  unfold fsck_rec
  simp [h]

theorem fsck_go_split (iu ir : String → Bool) (lo : Bool) (level : Nat)
    (pre post : List (String × FsNode)) (name : String)
    (ch : List (String × FsNode)) :
    fsck_go iu ir lo level (pre ++ (name, FsNode.dir false ch) :: post) =
      ((fsck_go iu ir lo level pre).1 ++
        (if (fsck_rec iu ir lo (level + 1) ch).2 then
           [(name, FsNode.dir false (fsck_rec iu ir lo (level + 1) ch).1)]
         else []) ++
        (fsck_go iu ir lo level post).1,
       ((fsck_go iu ir lo level pre).2 || (fsck_rec iu ir lo (level + 1) ch).2
         || (fsck_go iu ir lo level post).2)) := by
  induction pre with
  | nil =>
    simp only [List.nil_append]
    cases hsub : (fsck_rec iu ir lo (level + 1) ch).2 with
    | false => simp [fsck_go, hsub]
    | true => simp [fsck_go, hsub]
  | cons p pre' ih =>
    rcases p with ⟨n, node⟩
    cases node with
    | file =>
      simp only [List.cons_append, fsck_go]
      rw [ih]
      simp
    | dir ex ch2 =>
      simp only [List.cons_append, fsck_go]
      rw [ih]
      cases hsub2 : (fsck_rec iu ir lo (level + 1) ch2).2 with
      | false =>
        simp only [hsub2]
        repeat' split
        all_goals simp [Bool.or_assoc]
      | true =>
        simp only [hsub2]
        repeat' split
        all_goals simp [Bool.or_assoc]

/-- Counterexample to claim C6 as stated: a tree whose root holds a single
EMPTY directory younger than the grace period (`expired = false`) — the
grace-period check shields it from the orphan deletions, but after recursion
its swept subtree is empty and `remove_dir` deletes it, so the sweep does not
leave it in place. -/
theorem claimC6_counterexample :
    fsck_rec (fun _ => false) (fun _ => false) false 0
      [("d", FsNode.dir false [])] = ([], false) := by
  rw [fsck_rec_eq_go _ _ _ _ _ (by omega)]
  simp [fsck_go, fsck_rec_eq_go _ _ _ 1 _ (by omega)]

/-- Claim C6, amended: a directory younger than the grace period is exempt
from the orphaned-temp-folder and unreferenced-blob deletions (for any
`is_temp`/uuid/reference oracle and any `log_only` mode), but it survives
the sweep iff its recursively swept subtree is non-empty: an empty young
directory (or one emptied by the sweep) is removed by the empty-directory
pruning.  Formally, processing a young directory entry inside any listing is
exactly the keep-iff-subtree-non-empty rule, independent of its siblings. -/
theorem claimC6_young_dir_survival (iu ir : String → Bool) (lo : Bool)
    (level : Nat) (pre post : List (String × FsNode)) (name : String)
    (ch : List (String × FsNode)) :
    fsck_rec iu ir lo level (pre ++ (name, FsNode.dir false ch) :: post) =
      ((fsck_rec iu ir lo level pre).1 ++
        (if (fsck_rec iu ir lo (level + 1) ch).2 then
           [(name, FsNode.dir false (fsck_rec iu ir lo (level + 1) ch).1)]
         else []) ++
        (fsck_rec iu ir lo level post).1,
       ((fsck_rec iu ir lo level pre).2 ||
         (fsck_rec iu ir lo (level + 1) ch).2 ||
         (fsck_rec iu ir lo level post).2)) := by
  by_cases hlv : 7 < level
  · have h8 : 7 < level + 1 := by omega
    unfold fsck_rec
    simp [hlv, h8]
  · rw [fsck_rec_eq_go iu ir lo level _ hlv, fsck_rec_eq_go iu ir lo level pre hlv,
        fsck_rec_eq_go iu ir lo level post hlv]
    exact fsck_go_split iu ir lo level pre post name ch

/-- Claim C2 (code bug): on a fresh store, inserting a one-chunk stream under
a concrete UUID key fails, no file is ever created (in particular no `data`
file inside the `<uuid>.inserting` staging directory), the committed `<uuid>`
directory never appears, and the orphaned staging directory is left behind —
because `insert` hands `do_insert` the FINAL directory path, whose directory
was never created, so `create_new(<uuid>/data)` fails with a missing parent. -/
theorem claimC2_insert_writes_outside_staging :
    (fsInsert ["root"] ⟨[["root"]], []⟩
       "00000000-0000-4000-8000-000000000000" [.ok [1, 2, 3]]).2 = .error () ∧
    (fsInsert ["root"] ⟨[["root"]], []⟩
       "00000000-0000-4000-8000-000000000000" [.ok [1, 2, 3]]).1.files = [] ∧
    ¬ directory_path_for_key ["root"] "00000000-0000-4000-8000-000000000000" ∈
      (fsInsert ["root"] ⟨[["root"]], []⟩
        "00000000-0000-4000-8000-000000000000" [.ok [1, 2, 3]]).1.dirs ∧
    ["root", "0", "000", "00", "00",
     "00000000-0000-4000-8000-000000000000.inserting"] ∈
      (fsInsert ["root"] ⟨[["root"]], []⟩
        "00000000-0000-4000-8000-000000000000" [.ok [1, 2, 3]]).1.dirs := by
  exact ⟨rfl, rfl, by decide, by decide⟩
